import Mathlib

/-!
# Verification of node-neopixel-utils (src/neopixel-utils.js)

Shallow embedding of the `Strip` factory from `src/neopixel-utils.js`.
A strip object holds a Node `Buffer` of `pixelCount * 3` bytes and a
`pixelCount` field.  The buffer is modelled as a `List ℤ` of its byte
values, a JS number channel as `ℤ` (all claims quantify over integer
channels), and a JS exception as an explicit error value threaded next
to the state, since Node `Buffer` mutation is in place: a method that
throws after a successful write leaves that write behind.

Host (Node `Buffer`) semantics used by the source:

* `buf.writeUInt8(value, offset)` checks that `value` is within
  `[0, 255]` and throws a range error on the value BEFORE checking the
  offset; then it checks `offset ∧ offset + 1 ≤ buf.length` and throws
  a range error on the index; only then does it store the byte.  A
  negative offset is rejected by the bounds check (historical Node
  coerced the offset with an unsigned shift, which sends every negative
  offset of a buffer smaller than 4 GiB out of bounds; current Node
  rejects it directly — same observable outcome here).
* `Buffer` has NO method named `read` (only `readUInt8` and friends),
  so `this.buffer.read(...)` in `getPixelColor` throws a `TypeError`
  on every call, whatever the index.
* `new Buffer(n)` allocates `n` bytes of unspecified content; the
  factory then zero-fills them with an explicit loop.  The unspecified
  content is modelled by a `junk` parameter.
* indexing a JS array out of range yields `undefined`; `writeUInt8`
  coerces it to `NaN`, which passes the value-range comparisons and is
  masked to the byte 0.  An `Option ℤ` value with `none` for this case
  keeps the write faithful for arrays of any length.

The external `color-string` library (`colorString.get.rgb`) is a black
box: a function from strings to `some` RGB list or `none` (JS `null`)
when the string parses as no known color.  Reading `null[0]` throws a
`TypeError` before any byte is written.
-/

namespace NeoPixel

/-- The distinct exceptions the embedded code can raise, plus the three
abstract error kinds named by the specification (which no code path of
the source produces, but which claims mention). -/
inductive JsErr
  /-- writeUInt8: value out of `[0, 255]` (range error on the value). -/
  | valueOutOfBounds
  /-- writeUInt8: offset outside the buffer (range error on the index). -/
  | offsetOutOfBounds
  /-- reading property 0 of `null` after a failed color parse. -/
  | nullIndex
  /-- `this.buffer.read` is not a function. -/
  | noReadMethod
  /-- specification error kind: index out of range (never raised here). -/
  | IndexOutOfRange
  /-- specification error kind: unresolvable color (never raised here). -/
  | UnresolvableColor
  /-- specification error kind: invalid channel value (never raised here). -/
  | InvalidChannelValue
  deriving DecidableEq

/-- The state of a strip object: the byte buffer and the pixel count. -/
structure Strip where
  buffer : List ℤ
  pixelCount : ℕ
  deriving DecidableEq

/-- `buf.writeUInt8 value offset`: value-range check first, then offset
bounds check, then the in-place store.  `none` stands for the JS
`undefined → NaN` value, which passes both comparisons of the value
check and stores the byte 0. -/
def bufWriteUInt8 (b : List ℤ) (value : Option ℤ) (offset : ℤ) :
    Except JsErr (List ℤ) :=
  match value with
  | some v =>
      if 255 < v ∨ v < 0 then .error .valueOutOfBounds
      else if offset < 0 ∨ (b.length : ℤ) < offset + 1 then
        .error .offsetOutOfBounds
      else .ok (b.set offset.toNat v)
  | none =>
      if offset < 0 ∨ (b.length : ℤ) < offset + 1 then
        .error .offsetOutOfBounds
      else .ok (b.set offset.toNat 0)

/-- `this.buffer.read(offset)`: `Buffer` has no method `read`, so every
call throws a `TypeError`, touching nothing. -/
def bufRead (_b : List ℤ) (_offset : ℤ) : Except JsErr ℤ :=
  .error .noReadMethod

/-- A color argument: a JS array of numbers, or a string handed to the
`color-string` library. -/
inductive ColorInput
  | arr : List ℤ → ColorInput
  | str : String → ColorInput
  deriving DecidableEq

/-- The external `colorString.get.rgb` capability: `some` channel list
for a recognised color string, `none` (JS `null`) otherwise. -/
abbrev ColorDB := String → Option (List ℤ)

/-- The `colorArray` computation of `setPixelColor`: an array passes
through unchanged, a string goes to `colorString.get.rgb`. -/
def resolveColor (cs : ColorDB) : ColorInput → Option (List ℤ)
  | .arr a => some a
  | .str t => cs t

/-- `setPixelColor(index, color)`: resolve the color, then write the
three channels with `writeUInt8` at offsets `index*3`, `index*3+1`,
`index*3+2`.  A `null` color array throws on `colorArray[0]` before
any write; a throwing write keeps the bytes already stored. -/
def setPixelColor (cs : ColorDB) (s : Strip) (index : ℤ)
    (color : ColorInput) : Strip × Option JsErr :=
  match resolveColor cs color with
  | none => (s, some .nullIndex)
  | some ca =>
    match bufWriteUInt8 s.buffer ca[0]? (index * 3) with
    | .error e => (s, some e)
    | .ok b1 =>
      match bufWriteUInt8 b1 ca[1]? (index * 3 + 1) with
      | .error e => ({ s with buffer := b1 }, some e)
      | .ok b2 =>
        match bufWriteUInt8 b2 ca[2]? (index * 3 + 2) with
        | .error e => ({ s with buffer := b2 }, some e)
        | .ok b3 => ({ s with buffer := b3 }, none)

/-- `getPixelColor(index)`: three `this.buffer.read` calls inside an
array literal; no assignment to the object, so the state is returned
as is next to the (always failing) value. -/
def getPixelColor (s : Strip) (index : ℤ) :
    Strip × Except JsErr (List ℤ) :=
  (s,
    match bufRead s.buffer (index * 3) with
    | .error e => .error e
    | .ok r =>
      match bufRead s.buffer (index * 3 + 1) with
      | .error e => .error e
      | .ok g =>
        match bufRead s.buffer (index * 3 + 2) with
        | .error e => .error e
        | .ok b => .ok [r, g, b])

/-- A `for (let i=0; ...; i++) { this.setPixelColor(i, ...) }` loop: a
thrown exception stops the loop and propagates, keeping the state
mutated so far.  The iteration list is fixed up front, faithful since
no body changes `pixelCount`. -/
def runLoop (f : Strip → ℕ → Strip × Option JsErr) :
    Strip → List ℕ → Strip × Option JsErr
  | s, [] => (s, none)
  | s, i :: rest =>
    match f s i with
    | (s1, none) => runLoop f s1 rest
    | (s1, some e) => (s1, some e)

/-- `off()`: `setPixelColor(i, [0,0,0])` for `i` from 0 to
`pixelCount - 1`. -/
def off (cs : ColorDB) (s : Strip) : Strip × Option JsErr :=
  runLoop (fun st i => setPixelColor cs st (i : ℤ) (.arr [0, 0, 0])) s
    (List.range s.pixelCount)

/-- `on(color)`: `setPixelColor(i, color)` for `i` from 0 to
`pixelCount - 1`; the color is re-resolved on every iteration. -/
def «on» (cs : ColorDB) (s : Strip) (color : ColorInput) :
    Strip × Option JsErr :=
  runLoop (fun st i => setPixelColor cs st (i : ℤ) color) s
    (List.range s.pixelCount)

/-- The `Strip(pixelCount)` factory: allocate `pixelCount * 3` bytes of
unspecified content (`junk`), then zero them one by one with the
trailing `for` loop. -/
def Strip.make (pixelCount : ℕ) (junk : ℕ → ℤ) : Strip :=
  let obj : Strip :=
    { buffer := (List.range (pixelCount * 3)).map junk
      pixelCount := pixelCount }
  { obj with
      buffer :=
        (List.range (pixelCount * 3)).foldl (fun b i => b.set i 0)
          obj.buffer }

/-- The documented layout invariant of a strip. -/
abbrev StripInv (s : Strip) : Prop :=
  s.buffer.length = s.pixelCount * 3

/-- A color database that recognises no string, for concrete instances. -/
def csNone : ColorDB := fun _ => none

/-- The buffer of `m` pixels all set to the triple `(r, g, b)`:
expected result of a whole-strip fill. -/
def fillRGB : ℕ → ℤ → ℤ → ℤ → List ℤ
  | 0, _, _, _ => []
  | m + 1, r, g, b => r :: g :: b :: fillRGB m r g b

/-! ## Helper lemmas -/

/-- Setting the element just past a prefix replaces the head of the
suffix. -/
lemma set_after_append (P : List ℤ) (x y : ℤ) (t : List ℤ) :
    (P ++ x :: t).set P.length y = P ++ y :: t := by
  rw [List.set_append_right _ _ (Nat.le_refl _), Nat.sub_self]
  rfl

/-- The zero-filling loop of the factory, generalised to an arbitrary
already-processed prefix. -/
lemma foldl_set_zero (rest : List ℤ) :
    ∀ P : List ℤ,
      (List.range' P.length rest.length).foldl (fun b i => b.set i 0)
          (P ++ rest) =
        P ++ List.replicate rest.length 0 := by
  induction rest with
  | nil => intro P; simp
  | cons x t ih =>
    intro P
    rw [List.length_cons, List.range'_succ, List.foldl_cons,
      set_after_append]
    have h2 : P ++ (0 : ℤ) :: t = (P ++ [0]) ++ t := by simp
    have h3 : P.length + 1 = (P ++ [(0 : ℤ)]).length := by simp
    rw [h2, h3, ih (P ++ [0])]
    simp [List.replicate_succ]

/-- The factory always produces the all-zero strip, whatever filled
the freshly allocated buffer. -/
lemma make_eq (n : ℕ) (junk : ℕ → ℤ) :
    Strip.make n junk = ⟨List.replicate (n * 3) 0, n⟩ := by
  have h := foldl_set_zero ((List.range (n * 3)).map junk) ([] : List ℤ)
  simp only [List.nil_append, List.length_nil, List.length_map,
    List.length_range] at h
  rw [← List.range_eq_range'] at h
  show Strip.mk
      ((List.range (n * 3)).foldl (fun b i => b.set i 0)
        ((List.range (n * 3)).map junk)) n = _
  rw [h]

/-- A successful byte write leaves the buffer length alone. -/
lemma bufWriteUInt8_ok_length {b b2 : List ℤ} {v : Option ℤ} {o : ℤ}
    (h : bufWriteUInt8 b v o = .ok b2) : b2.length = b.length := by
  cases v with
  | some w =>
    simp only [bufWriteUInt8] at h
    by_cases hv : 255 < w ∨ w < 0
    · rw [if_pos hv] at h
      exact Except.noConfusion h
    · rw [if_neg hv] at h
      by_cases ho : o < 0 ∨ (b.length : ℤ) < o + 1
      · rw [if_pos ho] at h
        exact Except.noConfusion h
      · rw [if_neg ho] at h
        injection h with h
        subst h
        simp
  | none =>
    simp only [bufWriteUInt8] at h
    by_cases ho : o < 0 ∨ (b.length : ℤ) < o + 1
    · rw [if_pos ho] at h
      exact Except.noConfusion h
    · rw [if_neg ho] at h
      injection h with h
      subst h
      simp

/-- `setPixelColor` never changes the buffer length or the pixel
count, in success or failure. -/
lemma setPixelColor_preserve (cs : ColorDB) (s : Strip) (index : ℤ)
    (color : ColorInput) :
    (setPixelColor cs s index color).1.buffer.length
        = s.buffer.length ∧
    (setPixelColor cs s index color).1.pixelCount = s.pixelCount := by
  cases hres : resolveColor cs color with
  | none => simp [setPixelColor, hres]
  | some ca =>
    cases h1 : bufWriteUInt8 s.buffer ca[0]? (index * 3) with
    | error e => simp [setPixelColor, hres, h1]
    | ok b1 =>
      have l1 := bufWriteUInt8_ok_length h1
      cases h2 : bufWriteUInt8 b1 ca[1]? (index * 3 + 1) with
      | error e => simp [setPixelColor, hres, h1, h2, l1]
      | ok b2 =>
        have l2 := bufWriteUInt8_ok_length h2
        cases h3 : bufWriteUInt8 b2 ca[2]? (index * 3 + 2) with
        | error e => simp [setPixelColor, hres, h1, h2, h3, l1, l2]
        | ok b3 =>
          have l3 := bufWriteUInt8_ok_length h3
          simp [setPixelColor, hres, h1, h2, h3, l1, l2, l3]

/-- A loop whose body preserves buffer length and pixel count
preserves them too, wherever it stops. -/
lemma runLoop_preserve (f : Strip → ℕ → Strip × Option JsErr)
    (hf : ∀ st i, (f st i).1.buffer.length = st.buffer.length ∧
      (f st i).1.pixelCount = st.pixelCount) :
    ∀ (l : List ℕ) (s : Strip),
      (runLoop f s l).1.buffer.length = s.buffer.length ∧
      (runLoop f s l).1.pixelCount = s.pixelCount := by
  intro l
  induction l with
  | nil => intro s; exact ⟨rfl, rfl⟩
  | cons i rest ih =>
    intro s
    have hp := hf s i
    simp only [runLoop]
    cases hfi : f s i with
    | mk s1 e =>
      rw [hfi] at hp
      cases e with
      | none =>
        have h := ih s1
        exact ⟨h.1.trans hp.1, h.2.trans hp.2⟩
      | some er => exact ⟨hp.1, hp.2⟩

lemma fillRGB_length (m : ℕ) (r g b : ℤ) :
    (fillRGB m r g b).length = m * 3 := by
  induction m with
  | zero => rfl
  | succ k ih =>
    show (r :: g :: b :: fillRGB k r g b).length = (k + 1) * 3
    simp [ih]
    omega

lemma fillRGB_zero (m : ℕ) : fillRGB m 0 0 0 = List.replicate (m * 3) 0 := by
  induction m with
  | zero => rfl
  | succ k ih =>
    show (0 : ℤ) :: 0 :: 0 :: fillRGB k 0 0 0 = _
    have h3 : (k + 1) * 3 = 3 + k * 3 := by ring
    rw [ih, h3, List.replicate_add]
    rfl

/-- One in-bounds `setPixelColor` call with a resolved in-range triple:
the three bytes right after the prefix `P` are overwritten. -/
lemma setPixelColor_arr_ok (cs : ColorDB) (color : ColorInput)
    (r g b : ℤ) (hres : resolveColor cs color = some [r, g, b])
    (hr0 : 0 ≤ r) (hr1 : r ≤ 255) (hg0 : 0 ≤ g) (hg1 : g ≤ 255)
    (hb0 : 0 ≤ b) (hb1 : b ≤ 255) (P : List ℤ) (c0 c1 c2 : ℤ)
    (rest2 : List ℤ) (pc : ℕ) (k : ℕ) (hP : P.length = k * 3) :
    setPixelColor cs ⟨P ++ c0 :: c1 :: c2 :: rest2, pc⟩ (k : ℤ) color =
      (⟨P ++ r :: g :: b :: rest2, pc⟩, none) := by
  have g0 : ([r, g, b] : List ℤ)[0]? = some r := rfl
  have g1 : ([r, g, b] : List ℤ)[1]? = some g := rfl
  have g2 : ([r, g, b] : List ℤ)[2]? = some b := rfl
  have hlen : (P ++ c0 :: c1 :: c2 :: rest2).length
      = k * 3 + 3 + rest2.length := by
    simp [hP]
    omega
  have w1 : bufWriteUInt8 (P ++ c0 :: c1 :: c2 :: rest2) (some r)
      ((k : ℤ) * 3) = .ok (P ++ r :: c1 :: c2 :: rest2) := by
    have ht : ((k : ℤ) * 3).toNat = k * 3 := by omega
    simp only [bufWriteUInt8]
    rw [if_neg (by omega : ¬(255 < r ∨ r < 0))]
    rw [if_neg (by rw [hlen]; push_cast; omega :
      ¬((k : ℤ) * 3 < 0 ∨
        ((P ++ c0 :: c1 :: c2 :: rest2).length : ℤ) < (k : ℤ) * 3 + 1))]
    rw [ht, ← hP, set_after_append]
  have w2 : bufWriteUInt8 (P ++ r :: c1 :: c2 :: rest2) (some g)
      ((k : ℤ) * 3 + 1) = .ok (P ++ r :: g :: c2 :: rest2) := by
    have ht : ((k : ℤ) * 3 + 1).toNat = k * 3 + 1 := by omega
    have e2 : P ++ r :: c1 :: c2 :: rest2
        = (P ++ [r]) ++ c1 :: c2 :: rest2 := by simp
    have hl2 : (P ++ [r]).length = k * 3 + 1 := by simp [hP]
    simp only [bufWriteUInt8]
    rw [if_neg (by omega : ¬(255 < g ∨ g < 0))]
    rw [if_neg (by simp [hP]; omega :
      ¬((k : ℤ) * 3 + 1 < 0 ∨
        ((P ++ r :: c1 :: c2 :: rest2).length : ℤ)
          < (k : ℤ) * 3 + 1 + 1))]
    rw [ht, e2, ← hl2, set_after_append]
    simp
  have w3 : bufWriteUInt8 (P ++ r :: g :: c2 :: rest2) (some b)
      ((k : ℤ) * 3 + 2) = .ok (P ++ r :: g :: b :: rest2) := by
    have ht : ((k : ℤ) * 3 + 2).toNat = k * 3 + 2 := by omega
    have e2 : P ++ r :: g :: c2 :: rest2
        = (P ++ [r, g]) ++ c2 :: rest2 := by simp
    have hl2 : (P ++ [r, g]).length = k * 3 + 2 := by simp [hP]
    simp only [bufWriteUInt8]
    rw [if_neg (by omega : ¬(255 < b ∨ b < 0))]
    rw [if_neg (by simp [hP]; omega :
      ¬((k : ℤ) * 3 + 2 < 0 ∨
        ((P ++ r :: g :: c2 :: rest2).length : ℤ)
          < (k : ℤ) * 3 + 2 + 1))]
    rw [ht, e2, ← hl2, set_after_append]
    simp
  simp only [setPixelColor, hres, g0, g1, g2, w1, w2, w3]

/-- The whole-strip fill loop, generalised to a prefix of already
filled pixels: starting at pixel `k` with `m` pixels of raw bytes left,
every iteration succeeds and the tail becomes `fillRGB m r g b`. -/
lemma runLoop_fill (cs : ColorDB) (color : ColorInput) (r g b : ℤ)
    (hres : resolveColor cs color = some [r, g, b])
    (hr0 : 0 ≤ r) (hr1 : r ≤ 255) (hg0 : 0 ≤ g) (hg1 : g ≤ 255)
    (hb0 : 0 ≤ b) (hb1 : b ≤ 255) :
    ∀ (m k : ℕ) (P rest : List ℤ) (pc : ℕ),
      P.length = k * 3 → rest.length = m * 3 →
      runLoop (fun st i => setPixelColor cs st (i : ℤ) color)
          ⟨P ++ rest, pc⟩ (List.range' k m) =
        (⟨P ++ fillRGB m r g b, pc⟩, none) := by
  intro m
  induction m with
  | zero =>
    intro k P rest pc hP hrest
    obtain rfl := List.length_eq_zero.mp (show rest.length = 0 by omega)
    rfl
  | succ n ih =>
    intro k P rest pc hP hrest
    rcases rest with _ | ⟨c0, rest⟩
    · simp only [List.length_nil, List.length_cons] at hrest
      omega
    rcases rest with _ | ⟨c1, rest⟩
    · simp only [List.length_nil, List.length_cons] at hrest
      omega
    rcases rest with _ | ⟨c2, rest2⟩
    · simp only [List.length_nil, List.length_cons] at hrest
      omega
    have hr2 : rest2.length = n * 3 := by
      simp only [List.length_cons] at hrest
      omega
    have hP2 : (P ++ [r, g, b]).length = (k + 1) * 3 := by
      simp [hP]
      omega
    have he : P ++ r :: g :: b :: rest2 = (P ++ [r, g, b]) ++ rest2 := by
      simp
    have hf : (P ++ [r, g, b]) ++ fillRGB n r g b
        = P ++ fillRGB (n + 1) r g b := by
      show _ = P ++ (r :: g :: b :: fillRGB n r g b)
      simp
    rw [List.range'_succ]
    simp only [runLoop]
    rw [setPixelColor_arr_ok cs color r g b hres hr0 hr1 hg0 hg1 hb0
      hb1 P c0 c1 c2 rest2 pc k hP, he]
    show runLoop (fun st i => setPixelColor cs st (i : ℤ) color)
        ⟨(P ++ [r, g, b]) ++ rest2, pc⟩ (List.range' (k + 1) n)
      = ({ buffer := P ++ fillRGB (n + 1) r g b, pixelCount := pc },
          none)
    rw [ih (k + 1) (P ++ [r, g, b]) rest2 pc hP2 hr2, hf]

/-- Any write whose offset is outside the buffer fails with one of the
two write-level range errors, whatever the value. -/
lemma bufWriteUInt8_oob (bb : List ℤ) (w : Option ℤ) (o : ℤ)
    (h : o < 0 ∨ (bb.length : ℤ) < o + 1) :
    bufWriteUInt8 bb w o = .error .valueOutOfBounds ∨
    bufWriteUInt8 bb w o = .error .offsetOutOfBounds := by
  cases w with
  | some v =>
    by_cases hv : 255 < v ∨ v < 0
    · left
      simp only [bufWriteUInt8]
      rw [if_pos hv]
    · right
      simp only [bufWriteUInt8]
      rw [if_neg hv, if_pos h]
  | none =>
    right
    simp only [bufWriteUInt8]
    rw [if_pos h]

/-- A successful write is a single in-place `set`. -/
lemma bufWriteUInt8_ok_set {bb b2 : List ℤ} {v : Option ℤ} {o : ℤ}
    (h : bufWriteUInt8 bb v o = .ok b2) :
    ∃ w, b2 = bb.set o.toNat w := by
  cases v with
  | some w =>
    simp only [bufWriteUInt8] at h
    by_cases hv : 255 < w ∨ w < 0
    · rw [if_pos hv] at h
      exact Except.noConfusion h
    · rw [if_neg hv] at h
      by_cases ho : o < 0 ∨ (bb.length : ℤ) < o + 1
      · rw [if_pos ho] at h
        exact Except.noConfusion h
      · rw [if_neg ho] at h
        injection h with h
        exact ⟨w, h.symm⟩
  | none =>
    simp only [bufWriteUInt8] at h
    by_cases ho : o < 0 ∨ (bb.length : ℤ) < o + 1
    · rw [if_pos ho] at h
      exact Except.noConfusion h
    · rw [if_neg ho] at h
      injection h with h
      exact ⟨0, h.symm⟩

/-! ## Claims -/

/-- Claim C3: a freshly constructed strip has a buffer of exactly
`pixelCount * 3` bytes, every byte zero; `pixelCount` 0 gives the empty
buffer. -/
theorem make_zero_buffer (n : ℕ) (junk : ℕ → ℤ) :
    (Strip.make n junk).buffer = List.replicate (n * 3) 0 ∧
    (Strip.make n junk).pixelCount = n ∧
    (Strip.make 0 junk).buffer = [] := by
  exact ⟨by simp [make_eq], by simp [make_eq], by simp [make_eq]⟩

/-- Claim C4: `buffer.length = pixelCount * 3` holds after
construction and survives every operation, in success and failure, and
no operation changes `pixelCount`. -/
theorem strip_invariant_preserved (cs : ColorDB) (n : ℕ)
    (junk : ℕ → ℤ) (s : Strip) (index : ℤ) (color : ColorInput)
    (hInv : StripInv s) :
    StripInv (Strip.make n junk) ∧
    (StripInv (setPixelColor cs s index color).1 ∧
      (setPixelColor cs s index color).1.pixelCount = s.pixelCount) ∧
    (StripInv (getPixelColor s index).1 ∧
      (getPixelColor s index).1.pixelCount = s.pixelCount) ∧
    (StripInv (off cs s).1 ∧ (off cs s).1.pixelCount = s.pixelCount) ∧
    (StripInv («on» cs s color).1 ∧
      («on» cs s color).1.pixelCount = s.pixelCount) := by
  have hset := setPixelColor_preserve cs s index color
  have hoff := runLoop_preserve
    (fun st i => setPixelColor cs st (i : ℤ) (.arr [0, 0, 0]))
    (fun st i => setPixelColor_preserve cs st (i : ℤ) (.arr [0, 0, 0]))
    (List.range s.pixelCount) s
  have hon := runLoop_preserve
    (fun st i => setPixelColor cs st (i : ℤ) color)
    (fun st i => setPixelColor_preserve cs st (i : ℤ) color)
    (List.range s.pixelCount) s
  have hoff1 : (off cs s).1.buffer.length = s.buffer.length := hoff.1
  have hoff2 : (off cs s).1.pixelCount = s.pixelCount := hoff.2
  have hon1 : («on» cs s color).1.buffer.length = s.buffer.length :=
    hon.1
  have hon2 : («on» cs s color).1.pixelCount = s.pixelCount := hon.2
  refine ⟨?_, ⟨?_, hset.2⟩, ⟨hInv, rfl⟩, ⟨?_, hoff2⟩, ⟨?_, hon2⟩⟩
  · rw [make_eq]
    show (List.replicate (n * 3) (0 : ℤ)).length = n * 3
    simp
  · show (setPixelColor cs s index color).1.buffer.length
        = (setPixelColor cs s index color).1.pixelCount * 3
    rw [hset.1, hset.2]
    exact hInv
  · show (off cs s).1.buffer.length = (off cs s).1.pixelCount * 3
    rw [hoff1, hoff2]
    exact hInv
  · show («on» cs s color).1.buffer.length
        = («on» cs s color).1.pixelCount * 3
    rw [hon1, hon2]
    exact hInv

/-- Witness for C4 at a concrete strip. -/
theorem strip_invariant_preserved_witness :
    StripInv (off csNone ⟨[0, 0, 0], 1⟩).1 :=
  (strip_invariant_preserved csNone 2 (fun _ => 7) ⟨[0, 0, 0], 1⟩ 0
      (.arr [1, 2, 3]) (by decide)).2.2.2.1.1

/-- Claim C5: `on(color)` with a color resolving to an in-range triple
sets every pixel of the strip to that triple and succeeds. -/
theorem on_fills_all_pixels (cs : ColorDB) (s : Strip)
    (color : ColorInput) (r g b : ℤ) (hInv : StripInv s)
    (hres : resolveColor cs color = some [r, g, b])
    (hr0 : 0 ≤ r) (hr1 : r ≤ 255) (hg0 : 0 ≤ g) (hg1 : g ≤ 255)
    (hb0 : 0 ≤ b) (hb1 : b ≤ 255) :
    «on» cs s color = (⟨fillRGB s.pixelCount r g b, s.pixelCount⟩, none) := by
  obtain ⟨buf, pc⟩ := s
  have hlen : buf.length = pc * 3 := hInv
  have h := runLoop_fill cs color r g b hres hr0 hr1 hg0 hg1 hb0 hb1
    pc 0 [] buf pc (by simp) hlen
  simpa [«on», List.range_eq_range'] using h

/-- Witness for C5: `on([10,20,30])` on a 3-pixel strip, as the claim
instantiates it. -/
theorem on_fills_all_pixels_witness :
    («on» csNone ⟨[0, 0, 0, 0, 0, 0, 0, 0, 0], 3⟩
        (.arr [10, 20, 30])).1.buffer
      = [10, 20, 30, 10, 20, 30, 10, 20, 30] := by
  have h := on_fills_all_pixels csNone ⟨[0, 0, 0, 0, 0, 0, 0, 0, 0], 3⟩
    (.arr [10, 20, 30]) 10 20 30 (by decide) rfl (by decide) (by decide)
    (by decide) (by decide) (by decide) (by decide)
  rw [h]
  rfl

/-- Claim C7: `off()` is the `setPixelColor(i, [0,0,0])` loop in index
order, zeroes the whole buffer, succeeds, and is idempotent. -/
theorem off_all_zero_idempotent (cs : ColorDB) (s : Strip)
    (hInv : StripInv s) :
    off cs s = runLoop
        (fun st i => setPixelColor cs st (i : ℤ) (.arr [0, 0, 0])) s
        (List.range s.pixelCount) ∧
    (off cs s).1.buffer = List.replicate (s.pixelCount * 3) 0 ∧
    (off cs s).2 = none ∧
    off cs (off cs s).1 = off cs s := by
  obtain ⟨buf, pc⟩ := s
  have hres : resolveColor cs (.arr [0, 0, 0]) = some [0, 0, 0] := rfl
  have key : ∀ buf2 : List ℤ, buf2.length = pc * 3 →
      off cs ⟨buf2, pc⟩ = (⟨fillRGB pc 0 0 0, pc⟩, none) := by
    intro buf2 h2
    have h := runLoop_fill cs (.arr [0, 0, 0]) 0 0 0 hres (by omega)
      (by omega) (by omega) (by omega) (by omega) (by omega)
      pc 0 [] buf2 pc (by simp) h2
    simpa [off, List.range_eq_range'] using h
  have h1 := key buf hInv
  refine ⟨rfl, ?_, ?_, ?_⟩
  · rw [h1]
    exact fillRGB_zero pc
  · rw [h1]
  · rw [h1]
    exact key (fillRGB pc 0 0 0) (fillRGB_length pc 0 0 0)

/-- Witness for C7 at a concrete strip. -/
theorem off_all_zero_idempotent_witness :
    (off csNone ⟨[5, 6, 7], 1⟩).1.buffer = List.replicate (1 * 3) 0 :=
  (off_all_zero_idempotent csNone ⟨[5, 6, 7], 1⟩ (by decide)).2.1

/-- Claim C10: `getPixelColor` is a pure read: it never modifies the
buffer or the pixel count, whatever the index and however it exits. -/
theorem getPixelColor_pure_read (s : Strip) (index : ℤ) :
    (getPixelColor s index).1 = s ∧
    (getPixelColor s index).1.buffer = s.buffer ∧
    (getPixelColor s index).1.pixelCount = s.pixelCount :=
  ⟨rfl, rfl, rfl⟩

/-- Claim C1 (code bug): after a successful `setPixelColor(0, [1,2,3])`
on a 1-pixel strip the bytes are stored, yet `getPixelColor(0)` does
not return them: it throws, because `Buffer` has no method `read`. -/
theorem getPixelColor_read_missing_bug :
    (setPixelColor csNone ⟨[0, 0, 0], 1⟩ 0 (.arr [1, 2, 3])).1.buffer
      = [1, 2, 3] ∧
    (setPixelColor csNone ⟨[0, 0, 0], 1⟩ 0 (.arr [1, 2, 3])).2 = none ∧
    (getPixelColor
        (setPixelColor csNone ⟨[0, 0, 0], 1⟩ 0 (.arr [1, 2, 3])).1 0).2
      = .error .noReadMethod :=
  ⟨by decide, by decide, rfl⟩

/-- Claim C6: when the string color resolves to `null`, `on` changes
nothing: reading `null[0]` throws in the first iteration before any
byte is written (and a 0-pixel strip never enters the loop). -/
theorem on_unresolvable_atomic (cs : ColorDB) (s : Strip) (t : String)
    (hcs : cs t = none) :
    («on» cs s (.str t)).1 = s ∧
    (0 < s.pixelCount → («on» cs s (.str t)).2 = some .nullIndex) := by
  obtain ⟨buf, pc⟩ := s
  cases pc with
  | zero => exact ⟨rfl, fun h => absurd h (lt_irrefl 0)⟩
  | succ n =>
    have hset : setPixelColor cs ⟨buf, n + 1⟩ (((0 : ℕ) : ℤ))
        (.str t) = (⟨buf, n + 1⟩, some .nullIndex) := by
      simp only [setPixelColor, resolveColor, hcs]
    have hrange : List.range (n + 1) = 0 :: List.range' 1 n := by
      rw [List.range_eq_range', List.range'_succ]
    have hon : «on» cs ⟨buf, n + 1⟩ (.str t)
        = (⟨buf, n + 1⟩, some .nullIndex) := by
      show runLoop (fun st i => setPixelColor cs st (i : ℤ) (.str t))
          ⟨buf, n + 1⟩ (List.range (n + 1)) = _
      rw [hrange]
      simp only [runLoop]
      rw [hset]
    exact ⟨by rw [hon], fun _ => by rw [hon]⟩

/-- Witness for C6 at a concrete strip and string. -/
theorem on_unresolvable_atomic_witness :
    («on» csNone ⟨[1, 2, 3], 1⟩ (.str "not-a-color")).1
      = (⟨[1, 2, 3], 1⟩ : Strip) :=
  (on_unresolvable_atomic csNone ⟨[1, 2, 3], 1⟩ "not-a-color" rfl).1

/-- Counterexample to C2 as stated: on a 1-pixel strip, index 1 makes
`setPixelColor` fail with the write-level range error, not with a
dedicated `IndexOutOfRange`, and `getPixelColor` fails with the
missing-method error. -/
theorem out_of_range_error_kind :
    (setPixelColor csNone ⟨[0, 0, 0], 1⟩ 1 (.arr [0, 0, 0])).2
        = some .offsetOutOfBounds ∧
    (setPixelColor csNone ⟨[0, 0, 0], 1⟩ 1 (.arr [0, 0, 0])).2
        ≠ some .IndexOutOfRange ∧
    (getPixelColor ⟨[0, 0, 0], 1⟩ 1).2 = .error .noReadMethod ∧
    JsErr.noReadMethod ≠ JsErr.IndexOutOfRange :=
  ⟨by decide, by decide, rfl, by decide⟩

/-- Claim C2 as amended: an out-of-range index makes `setPixelColor`
fail — with the error of the underlying buffer layer, never a
dedicated `IndexOutOfRange` — and leaves the strip untouched;
`getPixelColor` fails (for every index, in fact) with the
missing-method error, also leaving the strip untouched. -/
theorem setget_out_of_range_fail (cs : ColorDB) (s : Strip)
    (index : ℤ) (color : ColorInput) (hInv : StripInv s)
    (hidx : index < 0 ∨ (s.pixelCount : ℤ) ≤ index) :
    (setPixelColor cs s index color).1 = s ∧
    (setPixelColor cs s index color).2 ≠ none ∧
    (setPixelColor cs s index color).2 ≠ some .IndexOutOfRange ∧
    (getPixelColor s index).1 = s ∧
    (getPixelColor s index).2 = .error .noReadMethod := by
  have hoff : index * 3 < 0 ∨ (s.buffer.length : ℤ) < index * 3 + 1 := by
    rw [hInv]
    push_cast
    omega
  cases hres : resolveColor cs color with
  | none =>
    refine ⟨?_, ?_, ?_, rfl, rfl⟩
    · simp [setPixelColor, hres]
    · simp only [setPixelColor, hres]
      decide
    · simp only [setPixelColor, hres]
      decide
  | some ca =>
    rcases bufWriteUInt8_oob s.buffer ca[0]? (index * 3) hoff with
      h1 | h1
    · refine ⟨?_, ?_, ?_, rfl, rfl⟩
      · simp [setPixelColor, hres, h1]
      · simp only [setPixelColor, hres, h1]
        decide
      · simp only [setPixelColor, hres, h1]
        decide
    · refine ⟨?_, ?_, ?_, rfl, rfl⟩
      · simp [setPixelColor, hres, h1]
      · simp only [setPixelColor, hres, h1]
        decide
      · simp only [setPixelColor, hres, h1]
        decide

/-- Witness for C2 (amended) at a concrete strip and index. -/
theorem setget_out_of_range_fail_witness :
    (setPixelColor csNone ⟨[0, 0, 0], 1⟩ (-1) (.arr [0, 0, 0])).1
      = (⟨[0, 0, 0], 1⟩ : Strip) :=
  (setget_out_of_range_fail csNone ⟨[0, 0, 0], 1⟩ (-1) (.arr [0, 0, 0])
      (by decide) (by decide)).1

/-- Counterexample to C8 as stated: `setPixelColor(0, [5,300,7])` on a
1-pixel strip neither stores the channels modulo 256 (which would give
`[5,44,7]`) nor fails with `InvalidChannelValue`: it throws the
write-level value range error, with the first channel already
written. -/
theorem channel_policy_counterexample :
    setPixelColor csNone ⟨[0, 0, 0], 1⟩ 0 (.arr [5, 300, 7])
        = (⟨[5, 0, 0], 1⟩, some .valueOutOfBounds) ∧
    ([5, 0, 0] : List ℤ) ≠ [5, 44, 7] ∧
    JsErr.valueOutOfBounds ≠ JsErr.InvalidChannelValue :=
  ⟨by decide, by decide, by decide⟩

/-- Claim C8 as amended: a triple with any channel outside `[0, 255]`
makes `setPixelColor` at a valid index fail with the write-level value
range error; channel values are never reduced modulo 256. -/
theorem set_channel_out_of_range_rejects (cs : ColorDB) (s : Strip)
    (index : ℤ) (r g b : ℤ) (hInv : StripInv s) (h0 : 0 ≤ index)
    (hN : index < (s.pixelCount : ℤ))
    (hout : ¬(0 ≤ r ∧ r ≤ 255) ∨ ¬(0 ≤ g ∧ g ≤ 255) ∨
      ¬(0 ≤ b ∧ b ≤ 255)) :
    (setPixelColor cs s index (.arr [r, g, b])).2
      = some .valueOutOfBounds := by
  have hres : resolveColor cs (.arr [r, g, b]) = some [r, g, b] := rfl
  have hlen : (s.buffer.length : ℤ) = (s.pixelCount : ℤ) * 3 := by
    rw [hInv]
    push_cast
    ring
  by_cases hrv : 255 < r ∨ r < 0
  · have w1 : bufWriteUInt8 s.buffer (some r) (index * 3)
        = .error .valueOutOfBounds := by
      simp only [bufWriteUInt8]
      rw [if_pos hrv]
    simp [setPixelColor, hres, w1]
  · have w1 : bufWriteUInt8 s.buffer (some r) (index * 3)
        = .ok (s.buffer.set (index * 3).toNat r) := by
      simp only [bufWriteUInt8]
      rw [if_neg hrv, if_neg (by omega :
        ¬(index * 3 < 0 ∨ (s.buffer.length : ℤ) < index * 3 + 1))]
    have hlen1 : (((s.buffer.set (index * 3).toNat r).length) : ℤ)
        = (s.pixelCount : ℤ) * 3 := by
      rw [List.length_set]
      exact hlen
    by_cases hgv : 255 < g ∨ g < 0
    · have w2 : bufWriteUInt8 (s.buffer.set (index * 3).toNat r)
          (some g) (index * 3 + 1) = .error .valueOutOfBounds := by
        simp only [bufWriteUInt8]
        rw [if_pos hgv]
      simp [setPixelColor, hres, w1, w2]
    · have w2 : bufWriteUInt8 (s.buffer.set (index * 3).toNat r)
          (some g) (index * 3 + 1)
          = .ok ((s.buffer.set (index * 3).toNat r).set
              (index * 3 + 1).toNat g) := by
        simp only [bufWriteUInt8]
        rw [if_neg hgv, if_neg (by have := hlen1; omega :
          ¬(index * 3 + 1 < 0 ∨
            ((s.buffer.set (index * 3).toNat r).length : ℤ)
              < index * 3 + 1 + 1))]
      have hbv : 255 < b ∨ b < 0 := by omega
      have w3 : bufWriteUInt8 ((s.buffer.set (index * 3).toNat r).set
            (index * 3 + 1).toNat g) (some b) (index * 3 + 2)
          = .error .valueOutOfBounds := by
        simp only [bufWriteUInt8]
        rw [if_pos hbv]
      simp [setPixelColor, hres, w1, w2, w3]

/-- Witness for C8 (amended) at a concrete out-of-range channel. -/
theorem set_channel_out_of_range_rejects_witness :
    (setPixelColor csNone ⟨[0, 0, 0], 1⟩ 0 (.arr [5, 300, 7])).2
      = some JsErr.valueOutOfBounds :=
  set_channel_out_of_range_rejects csNone ⟨[0, 0, 0], 1⟩ 0 5 300 7
    (by decide) (by decide) (by decide) (by decide)

/-- Claim C9: a successful `setPixelColor` at a valid index touches at
most the three bytes of that pixel: every other byte, the buffer
length and the pixel count are unchanged. -/
theorem setPixelColor_frame (cs : ColorDB) (s : Strip) (index : ℤ)
    (color : ColorInput) (h0 : 0 ≤ index)
    (hN : index < (s.pixelCount : ℤ))
    (hok : (setPixelColor cs s index color).2 = none) :
    (setPixelColor cs s index color).1.pixelCount = s.pixelCount ∧
    (setPixelColor cs s index color).1.buffer.length
        = s.buffer.length ∧
    ∀ j : ℕ, (j : ℤ) ≠ index * 3 → (j : ℤ) ≠ index * 3 + 1 →
      (j : ℤ) ≠ index * 3 + 2 →
      (setPixelColor cs s index color).1.buffer[j]?
        = s.buffer[j]? := by
  cases hres : resolveColor cs color with
  | none =>
    simp only [setPixelColor, hres] at hok
    exact Option.noConfusion hok
  | some ca =>
    cases h1 : bufWriteUInt8 s.buffer ca[0]? (index * 3) with
    | error e =>
      simp only [setPixelColor, hres, h1] at hok
      exact Option.noConfusion hok
    | ok b1 =>
      cases h2 : bufWriteUInt8 b1 ca[1]? (index * 3 + 1) with
      | error e =>
        simp only [setPixelColor, hres, h1, h2] at hok
        exact Option.noConfusion hok
      | ok b2 =>
        cases h3 : bufWriteUInt8 b2 ca[2]? (index * 3 + 2) with
        | error e =>
          simp only [setPixelColor, hres, h1, h2, h3] at hok
          exact Option.noConfusion hok
        | ok b3 =>
          obtain ⟨w1, e1⟩ := bufWriteUInt8_ok_set h1
          obtain ⟨w2, e2⟩ := bufWriteUInt8_ok_set h2
          obtain ⟨w3, e3⟩ := bufWriteUInt8_ok_set h3
          refine ⟨?_, ?_, ?_⟩
          · simp [setPixelColor, hres, h1, h2, h3]
          · simp only [setPixelColor, hres, h1, h2, h3]
            rw [e3, e2, e1]
            simp
          · intro j hj0 hj1 hj2
            simp only [setPixelColor, hres, h1, h2, h3]
            rw [e3, e2, e1]
            have n1 : (index * 3).toNat ≠ j := by omega
            have n2 : (index * 3 + 1).toNat ≠ j := by omega
            have n3 : (index * 3 + 2).toNat ≠ j := by omega
            rw [List.getElem?_set_ne n3, List.getElem?_set_ne n2,
              List.getElem?_set_ne n1]

/-- Witness for C9: writing pixel 0 of a 2-pixel strip leaves byte 4
(inside pixel 1) unchanged. -/
theorem setPixelColor_frame_witness :
    (setPixelColor csNone ⟨[9, 9, 9, 9, 9, 9], 2⟩ 0
        (.arr [1, 2, 3])).1.buffer[4]? = some 9 := by
  have h := setPixelColor_frame csNone ⟨[9, 9, 9, 9, 9, 9], 2⟩ 0
    (.arr [1, 2, 3]) (by decide) (by decide) (by decide)
  rw [h.2.2 4 (by decide) (by decide) (by decide)]
  rfl

end NeoPixel
